import Mathlib

/-!
Formal model of the P1 edge durability and delivery pipeline: the
SQLite-backed spool (edge/src/spool.py), the batch uploader
(edge/src/uploader.py) and the upload loop (edge/src/main.py).

The spool table is modelled as a list of rows in insertion order together
with the next AUTOINCREMENT key. The operation peek mirrors the SQL
SELECT ... ORDER BY rowid ASC LIMIT n, and ack mirrors
DELETE FROM spool WHERE rowid IN (...). Python floats (SQLite REAL
columns) are modelled as rationals; the pipeline only stores and forwards
them, it never computes with them.
-/

set_option maxRecDepth 4000

namespace P1Edge

/-- Normalized measurement sample, the input contract of Spool.enqueue:
required keys device_id, ts, power_w, import_power_w; optional keys
energy_import_kwh, energy_export_kwh default to null. -/
structure Sample where
  device_id : String
  ts : String
  power_w : Int
  import_power_w : Int
  energy_import_kwh : Option ℚ
  energy_export_kwh : Option ℚ
deriving DecidableEq

/-- Row of the spool table (CREATE TABLE spool in spool.py): the
AUTOINCREMENT primary key rowid plus the sample columns and the
created_at column (DEFAULT datetime at insertion, supplied here as an
explicit argument of enqueue). -/
structure Row where
  rowid : Nat
  device_id : String
  ts : String
  power_w : Int
  import_power_w : Int
  energy_import_kwh : Option ℚ
  energy_export_kwh : Option ℚ
  created_at : String
deriving DecidableEq

/-- State of the spool database file: the table rows in insertion order
and the next AUTOINCREMENT value. SQLite AUTOINCREMENT keeps, in the
sqlite_sequence table stored inside the same database file, a counter
that is one larger than the largest rowid that has ever existed, so the
counter survives deletions and connection close and reopen. -/
structure SpoolState where
  rows : List Row
  nextRowid : Nat
deriving DecidableEq

/-- Rowids of a list of rows, in list order. -/
def idsOf (l : List Row) : List Nat :=
  l.map Row.rowid

namespace Spool

/-- A freshly created spool file: empty table; SQLite assigns rowid 1 to
the first inserted row. -/
def init : SpoolState :=
  { rows := [], nextRowid := 1 }

/-- The row built by the INSERT statement of Spool.enqueue from a sample,
the assigned AUTOINCREMENT key, and the created_at insertion time. -/
def rowOf (sample : Sample) (rid : Nat) (createdAt : String) : Row :=
  { rowid := rid
    device_id := sample.device_id
    ts := sample.ts
    power_w := sample.power_w
    import_power_w := sample.import_power_w
    energy_import_kwh := sample.energy_import_kwh
    energy_export_kwh := sample.energy_export_kwh
    created_at := createdAt }

/-- Spool.enqueue: INSERT one row; the AUTOINCREMENT mechanism assigns
the next key and bumps the persisted counter. The insert is committed
before the call returns. -/
def enqueue (sample : Sample) (createdAt : String) (s : SpoolState) : SpoolState :=
  { rows := s.rows ++ [rowOf sample s.nextRowid createdAt]
    nextRowid := s.nextRowid + 1 }

/-- Comparison used to model ORDER BY rowid ASC. -/
def leRow (a b : Row) : Bool :=
  decide (a.rowid ≤ b.rowid)

/-- Spool.peek: if n is smaller than 1 return the empty list, otherwise
SELECT all rows ORDER BY rowid ASC LIMIT n. The SELECT does not modify
the table. -/
def peek (n : Int) (s : SpoolState) : List Row :=
  if n < 1 then [] else (s.rows.mergeSort leRow).take n.toNat

/-- Spool.peek together with the (unchanged) state of the database after
the SELECT, to state side-effect freedom explicitly. -/
def peekOp (n : Int) (s : SpoolState) : List Row × SpoolState :=
  (peek n s, s)

/-- Spool.ack: an empty list is an early-return no-op; otherwise
DELETE FROM spool WHERE rowid IN rowids, keeping every other row. -/
def ack (rowids : List Nat) (s : SpoolState) : SpoolState :=
  if rowids = [] then s
  else { rows := s.rows.filter (fun r => decide (r.rowid ∉ rowids))
         nextRowid := s.nextRowid }

/-- Spool.count: SELECT COUNT of rows in the table. -/
def count (s : SpoolState) : Nat :=
  s.rows.length

/-- Closing the connection and reopening the same database file: the
committed rows and the AUTOINCREMENT counter are persisted in the file,
and the constructor only runs CREATE TABLE IF NOT EXISTS, so the
persisted state is unchanged. -/
def restart (s : SpoolState) : SpoolState :=
  s

end Spool

/-- Outcome of the HTTP POST issued by Uploader.upload_batch: either a
response with a status code, or an httpx transport error (connection
failure or timeout). -/
inductive TransportOutcome
  | response (status : Nat)
  | transportError
deriving DecidableEq

/-- The httpx raise_for_status test: a response succeeds exactly when its
status code is 2xx; transport errors never succeed. -/
def TransportOutcome.isSuccess : TransportOutcome → Bool
  | .response status => decide (200 ≤ status) && decide (status < 300)
  | .transportError => false

/-- Uploader backoff formula (Uploader.current_backoff): with base delay
1 the current backoff is the minimum of two to the attempt counter and
max_backoff. -/
def currentBackoff (maxBackoff : Nat) (attempt : Nat) : Nat :=
  min (2 ^ attempt) maxBackoff

/-- Sample payload actually transmitted for one row: the row with the
internal-only keys rowid and created_at stripped (the _STRIP_KEYS set of
uploader.py). -/
def stripRow (r : Row) : Sample :=
  { device_id := r.device_id
    ts := r.ts
    power_w := r.power_w
    import_power_w := r.import_power_w
    energy_import_kwh := r.energy_import_kwh
    energy_export_kwh := r.energy_export_kwh }

/-- One POST request to the ingest endpoint: the rowids of the batch
rows (kept locally for the later ack) and the stripped samples that form
the JSON body. -/
structure UploadRequest where
  rowids : List Nat
  samples : List Sample
deriving DecidableEq

/-- Result of one Uploader.upload_batch call: the returned boolean, the
backoff attempt counter afterwards, the spool afterwards, and the request
that was sent over the network (none when no network call was issued). -/
structure BatchResult where
  returned : Bool
  attempt : Nat
  spool : SpoolState
  request : Option UploadRequest
deriving DecidableEq

/-- Uploader.upload_batch: peek up to batch_size rows; if none, return
False with no network call and no state change. Otherwise POST the
stripped batch; on a 2xx response ack exactly the peeked rowids, reset
the attempt counter to zero and return True; on an error response or a
transport error leave the spool untouched, increment the attempt counter
and return False. -/
def uploadBatch (batchSize : Nat) (attempt : Nat) (s : SpoolState)
    (t : TransportOutcome) : BatchResult :=
  let rows := Spool.peek (batchSize : Int) s
  if rows = [] then
    { returned := false, attempt := attempt, spool := s, request := none }
  else
    let req : UploadRequest := { rowids := idsOf rows, samples := rows.map stripRow }
    if t.isSuccess then
      { returned := true, attempt := 0, spool := Spool.ack (idsOf rows) s
        request := some req }
    else
      { returned := false, attempt := attempt + 1, spool := s
        request := some req }

/-- Error raised by the Uploader constructor when the ingest URL does not
use HTTPS; the code raises ValueError with a message naming the URL, the
specification taxonomy calls this error ConfigurationError. The offending
URL is carried as the payload. -/
inductive UploadError
  | configurationError (url : String)
deriving DecidableEq

/-- Uploader object after successful construction: the stored
configuration, the backoff attempt counter (starting at zero), and the
TLS verification flag of the httpx client (always true). -/
structure Uploader where
  ingest_url : String
  device_token : String
  batch_size : Nat
  max_backoff : Nat
  attempt : Nat
  verify : Bool
deriving DecidableEq

/-- Python str.startswith as a prefix test on the character sequence of
the string (the Lean builtin String.startsWith has no evaluation lemmas
in this toolchain, so the equivalent character-list prefix test is used). -/
def pyStartsWith (s : String) (pre : String) : Bool :=
  pre.data.isPrefixOf s.data

/-- Uploader constructor: first the HTTPS check on the raw URL (a literal
startswith test); only when it passes is the rest of the object built,
ending with the creation of the httpx client with verify set to true. On
failure the error is raised before any client exists. -/
def uploaderInit (ingest_url : String) (device_token : String)
    (batch_size : Nat) (max_backoff : Nat) : Except UploadError Uploader :=
  if pyStartsWith ingest_url ("https://") then
    Except.ok
      { ingest_url := ingest_url.dropRightWhile (fun c => c = '/')
        device_token := device_token
        batch_size := batch_size
        max_backoff := max_backoff
        attempt := 0
        verify := true }
  else
    Except.error (UploadError.configurationError ingest_url)

/-- Wait interval chosen by one iteration of the upload loop in main.py:
after upload_batch returns, a successful iteration waits the configured
upload interval, any other iteration waits the maximum of the configured
upload interval and the current backoff read from the uploader. -/
def loopDelay (uploadInterval : Nat) (maxBackoff : Nat) (success : Bool)
    (attempt : Nat) : Nat :=
  if success then uploadInterval
  else max uploadInterval (currentBackoff maxBackoff attempt)

/-- One operation of the edge pipeline as it touches the spool and the
uploader: the poll loop enqueues, observers peek (a SELECT with no state
change), and the upload loop calls upload_batch with some transport
outcome. The only ack caller in the program is upload_batch itself. -/
inductive SysOp
  | enq (sample : Sample) (createdAt : String)
  | peekN (n : Int)
  | upl (t : TransportOutcome)
deriving DecidableEq

/-- Combined state of the pipeline: the spool database and the backoff
attempt counter owned by the uploader. -/
structure SysState where
  spool : SpoolState
  attempt : Nat
deriving DecidableEq

/-- Fresh pipeline: empty spool file and attempt counter zero. -/
def sysInit : SysState :=
  { spool := Spool.init, attempt := 0 }

/-- Effect of one pipeline operation on the combined state. -/
def sysStep (batchSize : Nat) (st : SysState) : SysOp → SysState
  | .enq x c => { st with spool := Spool.enqueue x c st.spool }
  | .peekN _ => st
  | .upl t =>
    let r := uploadBatch batchSize st.attempt st.spool t
    { spool := r.spool, attempt := r.attempt }

/-- Run a sequence of pipeline operations from a state. -/
def sysRun (batchSize : Nat) (st : SysState) (ops : List SysOp) : SysState :=
  ops.foldl (sysStep batchSize) st

/-- Rowids assigned by the enqueues of a run, in execution order. -/
def assignedIds (batchSize : Nat) : SysState → List SysOp → List Nat
  | _, [] => []
  | st, op :: rest =>
    (match op with
      | .enq _ _ => [st.spool.nextRowid]
      | _ => []) ++ assignedIds batchSize (sysStep batchSize st op) rest

/-- Rowids of the request of one upload_batch call when the uploader
observed a successful response for it (empty when no request was sent or
the response was not a success). -/
def sentOnSuccess (batchSize : Nat) (st : SysState) (t : TransportOutcome) :
    List Nat :=
  let r := uploadBatch batchSize st.attempt st.spool t
  if r.returned = true then (r.request.map UploadRequest.rowids).getD [] else []

/-- Rowids contained in successfully answered requests over a run, in
execution order. -/
def successfulSends (batchSize : Nat) : SysState → List SysOp → List Nat
  | _, [] => []
  | st, op :: rest =>
    (match op with
      | .upl t => sentOnSuccess batchSize st t
      | _ => []) ++ successfulSends batchSize (sysStep batchSize st op) rest

/-- Count of enqueue operations in a run. -/
def enqCount : List SysOp → Nat
  | [] => 0
  | SysOp.enq _ _ :: rest => enqCount rest + 1
  | _ :: rest => enqCount rest

/-- A run whose transport always fails: every upload operation in it
carries a non-successful outcome. -/
def allFail (ops : List SysOp) : Prop :=
  ∀ t : TransportOutcome, SysOp.upl t ∈ ops → t.isSuccess = false

/-- Pipeline states reachable from a fresh spool and uploader. -/
def SysReachable (batchSize : Nat) (st : SysState) : Prop :=
  ∃ ops : List SysOp, sysRun batchSize sysInit ops = st

/-- One spool-level operation: enqueue, ack of an arbitrary id list, or a
close followed by a reopen of the same database file. -/
inductive SpoolOp
  | enq (sample : Sample) (createdAt : String)
  | ackIds (ids : List Nat)
  | restart
deriving DecidableEq

/-- Effect of one spool operation on the spool state. -/
def spoolStep (s : SpoolState) : SpoolOp → SpoolState
  | .enq x c => Spool.enqueue x c s
  | .ackIds ids => Spool.ack ids s
  | .restart => Spool.restart s

/-- Run a sequence of spool operations from a state. -/
def spoolRun (s : SpoolState) (ops : List SpoolOp) : SpoolState :=
  ops.foldl spoolStep s

/-- Sequence ids assigned by the enqueues of a spool run, in execution
order. -/
def spoolAssigned : SpoolState → List SpoolOp → List Nat
  | _, [] => []
  | s, op :: rest =>
    (match op with
      | .enq _ _ => [s.nextRowid]
      | _ => []) ++ spoolAssigned (spoolStep s op) rest

/-- Spool states reachable from a fresh spool file. -/
def SpoolReachable (s : SpoolState) : Prop :=
  ∃ ops : List SpoolOp, spoolRun Spool.init ops = s

/-- Structural invariant of the spool table: every rowid is below the
persisted AUTOINCREMENT counter and the rowids strictly increase in
insertion order. -/
def spoolInv (s : SpoolState) : Prop :=
  (∀ a ∈ idsOf s.rows, a < s.nextRowid) ∧ List.Pairwise (· < ·) (idsOf s.rows)

/-- Combined pipeline invariant: the spool is structurally sound and a
nonzero attempt counter implies a nonempty spool (the only way the
counter rises is a failed delivery, which leaves its batch in place, and
rows disappear only on success, which resets the counter). -/
def sysInv (st : SysState) : Prop :=
  spoolInv st.spool ∧ (st.attempt = 0 ∨ st.spool.rows ≠ [])

/-- One iteration of the upload loop of main.py: call upload_batch with
the given transport outcome, then choose the next wait interval from the
returned boolean and the backoff state of the uploader (success waits
the configured upload interval, any other result waits the maximum of
the configured upload interval and the current backoff). -/
def loopIter (batchSize interval maxB : Nat) (st : SysState)
    (t : TransportOutcome) : SysState × Nat :=
  let r := uploadBatch batchSize st.attempt st.spool t
  ({ spool := r.spool, attempt := r.attempt },
    loopDelay interval maxB r.returned r.attempt)

/-- Pipeline state after k consecutive upload_batch calls whose transport
always fails, starting from a given spool and a zero attempt counter. -/
def failK (batchSize : Nat) (s : SpoolState) (k : Nat) : SysState :=
  sysRun batchSize { spool := s, attempt := 0 }
    (List.replicate k (SysOp.upl TransportOutcome.transportError))

/-- Concrete sample used in the witness scenarios. -/
def sampleA : Sample :=
  { device_id := "dev-a", ts := "2026-02-13T10:00:00Z", power_w := 1500
    import_power_w := 1500, energy_import_kwh := none, energy_export_kwh := none }

/-- Second concrete sample used in the witness scenarios. -/
def sampleB : Sample :=
  { device_id := "dev-b", ts := "2026-02-13T10:00:02Z", power_w := -200
    import_power_w := 0, energy_import_kwh := none, energy_export_kwh := none }

/-- Third concrete sample used in the witness scenarios. -/
def sampleC : Sample :=
  { device_id := "dev-c", ts := "2026-02-13T10:00:04Z", power_w := 7
    import_power_w := 7, energy_import_kwh := none, energy_export_kwh := none }

/-- Spool holding exactly one committed sample, used as a concrete
nonempty queue. -/
def spoolOne : SpoolState :=
  Spool.enqueue sampleA ("t0") Spool.init

/-- Concrete pipeline trace for the witness scenarios: enqueue one
sample, then one upload attempt over a failing transport, then enqueue a
second sample. -/
def opsW : List SysOp :=
  [SysOp.enq sampleA ("t0"), SysOp.upl TransportOutcome.transportError,
   SysOp.enq sampleB ("t1")]

/-! Basic lemmas about the spool operations. -/

theorem idsOf_append (l₁ l₂ : List Row) : idsOf (l₁ ++ l₂) = idsOf l₁ ++ idsOf l₂ := by
  simp [idsOf]

theorem ack_rows (ids : List Nat) (s : SpoolState) :
    (Spool.ack ids s).rows = s.rows.filter (fun r => decide (r.rowid ∉ ids)) := by
  unfold Spool.ack
  split
  · next h =>
    subst h
    simp
  · rfl

theorem ack_nextRowid (ids : List Nat) (s : SpoolState) :
    (Spool.ack ids s).nextRowid = s.nextRowid := by
  unfold Spool.ack
  split <;> rfl

theorem mem_ack_ids_iff {a : Nat} {ids : List Nat} {s : SpoolState} :
    a ∈ idsOf (Spool.ack ids s).rows ↔ a ∈ idsOf s.rows ∧ a ∉ ids := by
  rw [ack_rows]
  simp only [idsOf, List.mem_map, List.mem_filter, decide_eq_true_eq]
  constructor
  · rintro ⟨r, ⟨hr, hnotin⟩, rfl⟩
    exact ⟨⟨r, hr, rfl⟩, hnotin⟩
  · rintro ⟨⟨r, hr, rfl⟩, hnotin⟩
    exact ⟨r, ⟨hr, hnotin⟩, rfl⟩

theorem peek_of_rows_nil {n : Int} {s : SpoolState} (h : s.rows = []) :
    Spool.peek n s = [] := by
  unfold Spool.peek
  split
  · rfl
  · simp [h]

theorem peek_eq_take (n : Int) (s : SpoolState)
    (h : List.Pairwise (· < ·) (idsOf s.rows)) :
    Spool.peek n s = s.rows.take n.toNat := by
  unfold Spool.peek
  split
  · next hlt =>
    have h0 : n.toNat = 0 := Int.toNat_of_nonpos (by omega)
    simp [h0]
  · congr 1
    apply List.mergeSort_of_sorted
    have h2 : List.Pairwise (fun a b : Row => a.rowid < b.rowid) s.rows := by
      simpa [idsOf, List.pairwise_map] using h
    refine h2.imp (fun hab => ?_)
    simp only [Spool.leRow, decide_eq_true_eq]
    omega

theorem mem_of_mem_peek {r : Row} {n : Int} {s : SpoolState}
    (h : r ∈ Spool.peek n s) : r ∈ s.rows := by
  unfold Spool.peek at h
  split at h
  · simp at h
  · exact List.mem_mergeSort.mp (List.mem_of_mem_take h)

theorem peek_ne_nil {n : Int} {s : SpoolState} (hn : 1 ≤ n) (hr : s.rows ≠ []) :
    Spool.peek n s ≠ [] := by
  unfold Spool.peek
  rw [if_neg (by omega)]
  intro hcontra
  apply hr
  have hlen := congrArg List.length hcontra
  simp only [List.length_take, List.length_mergeSort, List.length_nil,
    Nat.min_eq_zero_iff] at hlen
  rcases hlen with h1 | h2
  · omega
  · exact List.length_eq_zero.mp h2

/-! Preservation of the spool structural invariant. -/

theorem spoolInv_init : spoolInv Spool.init := by
  constructor <;> simp [Spool.init, idsOf]

theorem spoolInv_enqueue {s : SpoolState} (h : spoolInv s)
    (x : Sample) (c : String) : spoolInv (Spool.enqueue x c s) := by
  obtain ⟨hb, hp⟩ := h
  constructor
  · intro a ha
    simp only [Spool.enqueue, idsOf, List.map_append, List.map_cons, List.map_nil,
      List.mem_append, List.mem_cons, List.not_mem_nil, or_false] at ha
    show a < s.nextRowid + 1
    rcases ha with ha | ha
    · have := hb a ha
      omega
    · simp [Spool.rowOf] at ha
      omega
  · simp only [Spool.enqueue, idsOf, List.map_append, List.map_cons, List.map_nil]
    rw [List.pairwise_append]
    refine ⟨hp, by simp, ?_⟩
    intro a ha b hb2
    simp only [List.mem_cons, List.not_mem_nil, or_false] at hb2
    subst hb2
    simp [Spool.rowOf]
    exact hb a ha

theorem spoolInv_ack {s : SpoolState} (h : spoolInv s) (ids : List Nat) :
    spoolInv (Spool.ack ids s) := by
  obtain ⟨hb, hp⟩ := h
  have hsub : (Spool.ack ids s).rows.Sublist s.rows := by
    rw [ack_rows]
    exact List.filter_sublist _
  constructor
  · intro a ha
    rw [ack_nextRowid]
    exact hb a ((hsub.map Row.rowid).subset ha)
  · exact hp.sublist (hsub.map Row.rowid)

theorem spoolInv_restart {s : SpoolState} (h : spoolInv s) :
    spoolInv (Spool.restart s) := h

theorem spoolInv_spoolStep {s : SpoolState} (h : spoolInv s) (op : SpoolOp) :
    spoolInv (spoolStep s op) := by
  cases op with
  | enq x c => exact spoolInv_enqueue h x c
  | ackIds ids => exact spoolInv_ack h ids
  | restart => exact spoolInv_restart h

theorem spoolInv_spoolRun {s : SpoolState} (h : spoolInv s) (ops : List SpoolOp) :
    spoolInv (spoolRun s ops) := by
  induction ops generalizing s with
  | nil => exact h
  | cons op rest ih => exact ih (spoolInv_spoolStep h op)

theorem spoolInv_of_reachable {s : SpoolState} (h : SpoolReachable s) : spoolInv s := by
  obtain ⟨ops, rfl⟩ := h
  exact spoolInv_spoolRun spoolInv_init ops

/-! Case analysis of one upload_batch call. -/

theorem uploadBatch_of_peek_nil {bs a : Nat} {s : SpoolState} {t : TransportOutcome}
    (h : Spool.peek (bs : Int) s = []) :
    uploadBatch bs a s t =
      { returned := false, attempt := a, spool := s, request := none } := by
  unfold uploadBatch
  simp [h]

theorem uploadBatch_of_fail {bs a : Nat} {s : SpoolState} {t : TransportOutcome}
    (h : Spool.peek (bs : Int) s ≠ []) (ht : t.isSuccess = false) :
    uploadBatch bs a s t =
      { returned := false, attempt := a + 1, spool := s
        request := some { rowids := idsOf (Spool.peek (bs : Int) s)
                          samples := (Spool.peek (bs : Int) s).map stripRow } } := by
  unfold uploadBatch
  simp [h, ht]

theorem uploadBatch_of_success {bs a : Nat} {s : SpoolState} {t : TransportOutcome}
    (h : Spool.peek (bs : Int) s ≠ []) (ht : t.isSuccess = true) :
    uploadBatch bs a s t =
      { returned := true, attempt := 0
        spool := Spool.ack (idsOf (Spool.peek (bs : Int) s)) s
        request := some { rowids := idsOf (Spool.peek (bs : Int) s)
                          samples := (Spool.peek (bs : Int) s).map stripRow } } := by
  unfold uploadBatch
  simp [h, ht]

theorem isSuccess_transportError :
    TransportOutcome.transportError.isSuccess = false := rfl

theorem uploadBatch_returned_true_iff {bs a : Nat} {s : SpoolState}
    {t : TransportOutcome} :
    (uploadBatch bs a s t).returned = true ↔
      Spool.peek (bs : Int) s ≠ [] ∧ t.isSuccess = true := by
  by_cases h : Spool.peek (bs : Int) s = []
  · rw [uploadBatch_of_peek_nil h]
    simp [h]
  · cases ht : t.isSuccess
    · rw [uploadBatch_of_fail h ht]
      simp [h, ht]
    · rw [uploadBatch_of_success h ht]
      simp [h, ht]

/-! Unfolding lemmas for runs of pipeline operations. -/

theorem sysRun_nil {bs : Nat} {st : SysState} : sysRun bs st [] = st := rfl

theorem sysRun_cons {bs : Nat} {st : SysState} {op : SysOp} {ops : List SysOp} :
    sysRun bs st (op :: ops) = sysRun bs (sysStep bs st op) ops := rfl

theorem spoolRun_nil {s : SpoolState} : spoolRun s [] = s := rfl

theorem spoolRun_cons {s : SpoolState} {op : SpoolOp} {ops : List SpoolOp} :
    spoolRun s (op :: ops) = spoolRun (spoolStep s op) ops := rfl

theorem sysStep_spool_nextRowid_ge {bs : Nat} {st : SysState} {op : SysOp} :
    st.spool.nextRowid ≤ (sysStep bs st op).spool.nextRowid := by
  cases op with
  | enq x c => simp [sysStep, Spool.enqueue]
  | peekN n => exact Nat.le_refl _
  | upl t =>
    show st.spool.nextRowid ≤ (uploadBatch bs st.attempt st.spool t).spool.nextRowid
    by_cases h : Spool.peek (bs : Int) st.spool = []
    · rw [uploadBatch_of_peek_nil h]
    · cases ht : t.isSuccess
      · rw [uploadBatch_of_fail h ht]
      · rw [uploadBatch_of_success h ht]
        simp [ack_nextRowid]

theorem sysInv_init : sysInv sysInit := by
  exact ⟨spoolInv_init, Or.inl rfl⟩

theorem sysInv_step {bs : Nat} {st : SysState} (h : sysInv st) (op : SysOp) :
    sysInv (sysStep bs st op) := by
  obtain ⟨hs, ha⟩ := h
  cases op with
  | enq x c =>
    refine ⟨spoolInv_enqueue hs x c, Or.inr ?_⟩
    simp [sysStep, Spool.enqueue]
  | peekN n => exact ⟨hs, ha⟩
  | upl t =>
    by_cases hp : Spool.peek (bs : Int) st.spool = []
    · show sysInv { spool := (uploadBatch bs st.attempt st.spool t).spool
                    attempt := (uploadBatch bs st.attempt st.spool t).attempt }
      rw [uploadBatch_of_peek_nil hp]
      exact ⟨hs, ha⟩
    · cases ht : t.isSuccess
      · show sysInv { spool := (uploadBatch bs st.attempt st.spool t).spool
                      attempt := (uploadBatch bs st.attempt st.spool t).attempt }
        rw [uploadBatch_of_fail hp ht]
        refine ⟨hs, Or.inr ?_⟩
        intro hnil
        exact hp (peek_of_rows_nil hnil)
      · show sysInv { spool := (uploadBatch bs st.attempt st.spool t).spool
                      attempt := (uploadBatch bs st.attempt st.spool t).attempt }
        rw [uploadBatch_of_success hp ht]
        exact ⟨spoolInv_ack hs _, Or.inl rfl⟩

theorem sysInv_run {bs : Nat} {st : SysState} (h : sysInv st) (ops : List SysOp) :
    sysInv (sysRun bs st ops) := by
  induction ops generalizing st with
  | nil => exact h
  | cons op rest ih => exact ih (sysInv_step h op)

theorem sysInv_of_reachable {bs : Nat} {st : SysState}
    (h : SysReachable bs st) : sysInv st := by
  obtain ⟨ops, rfl⟩ := h
  exact sysInv_run sysInv_init ops

/-! A rowid that has left the table (or never entered it) below the
AUTOINCREMENT counter can never appear in the table again: enqueues only
assign fresh ids at or above the counter, and acks only remove rows. -/

theorem not_mem_sysRun_of_not_mem {bs : Nat} (ops : List SysOp) :
    ∀ st : SysState, ∀ r : Nat, r ∉ idsOf st.spool.rows → r < st.spool.nextRowid →
      r ∉ idsOf (sysRun bs st ops).spool.rows := by
  induction ops with
  | nil =>
    intro st r h1 _
    exact h1
  | cons op rest ih =>
    intro st r h1 h2
    rw [sysRun_cons]
    refine ih _ r ?_ (lt_of_lt_of_le h2 sysStep_spool_nextRowid_ge)
    cases op with
    | enq x c =>
      simp only [sysStep, Spool.enqueue, idsOf, List.map_append, List.map_cons,
        List.map_nil, List.mem_append, List.mem_cons, List.not_mem_nil, or_false]
      rintro (hin | hin)
      · exact h1 hin
      · simp [Spool.rowOf] at hin
        omega
    | peekN n => exact h1
    | upl t =>
      show r ∉ idsOf (uploadBatch bs st.attempt st.spool t).spool.rows
      by_cases hp : Spool.peek (bs : Int) st.spool = []
      · rw [uploadBatch_of_peek_nil hp]
        exact h1
      · cases ht : t.isSuccess
        · rw [uploadBatch_of_fail hp ht]
          exact h1
        · rw [uploadBatch_of_success hp ht]
          intro hin
          exact h1 (mem_ack_ids_iff.mp hin).1

/-- Every id assigned during a run sits at or above the AUTOINCREMENT
counter of the starting state. -/
theorem le_of_mem_assignedIds {bs : Nat} (ops : List SysOp) :
    ∀ st : SysState, ∀ a ∈ assignedIds bs st ops, st.spool.nextRowid ≤ a := by
  induction ops with
  | nil =>
    intro st a ha
    simp [assignedIds] at ha
  | cons op rest ih =>
    intro st a ha
    simp only [assignedIds, List.mem_append] at ha
    rcases ha with ha | ha
    · cases op <;> simp_all
    · exact le_trans sysStep_spool_nextRowid_ge (ih _ a ha)

/-- Ids of a peeked batch are ids of rows currently in the table. -/
theorem mem_rows_of_mem_peek_ids {r : Nat} {n : Int} {s : SpoolState}
    (h : r ∈ idsOf (Spool.peek n s)) : r ∈ idsOf s.rows := by
  simp only [idsOf, List.mem_map] at h ⊢
  obtain ⟨row, hrow, rfl⟩ := h
  exact ⟨row, mem_of_mem_peek hrow, rfl⟩

/-- The spool structural invariant is preserved by every pipeline step. -/
theorem spoolInv_sysStep {bs : Nat} {st : SysState} (h : spoolInv st.spool)
    (op : SysOp) : spoolInv (sysStep bs st op).spool := by
  cases op with
  | enq x c => exact spoolInv_enqueue h x c
  | peekN n => exact h
  | upl t =>
    show spoolInv (uploadBatch bs st.attempt st.spool t).spool
    by_cases hp : Spool.peek (bs : Int) st.spool = []
    · rw [uploadBatch_of_peek_nil hp]
      exact h
    · cases ht : t.isSuccess
      · rw [uploadBatch_of_fail hp ht]
        exact h
      · rw [uploadBatch_of_success hp ht]
        exact spoolInv_ack h _

/-- Membership in the final table after a run: an id that is in the table
at the start or assigned during the run is absent at the end exactly when
some successfully answered request of the run contained it. -/
theorem mem_sysRun_iff {bs : Nat} (ops : List SysOp) :
    ∀ st : SysState, spoolInv st.spool → ∀ r : Nat,
      (r ∈ idsOf st.spool.rows ∨ r ∈ assignedIds bs st ops) →
      (r ∉ idsOf (sysRun bs st ops).spool.rows ↔
        r ∈ successfulSends bs st ops) := by
  induction ops with
  | nil =>
    intro st _ r hmem
    simp only [assignedIds, List.not_mem_nil, or_false] at hmem
    simp only [sysRun_nil, successfulSends, List.not_mem_nil, iff_false, not_not]
    exact hmem
  | cons op rest ih =>
    intro st hinv r hmem
    have hinv' : spoolInv (sysStep bs st op).spool := spoolInv_sysStep hinv op
    rw [sysRun_cons]
    cases op with
    | enq x c =>
      simp only [successfulSends, List.nil_append]
      apply ih _ hinv' r
      rcases hmem with hmem | hmem
      · left
        simp only [sysStep, Spool.enqueue, idsOf, List.map_append, List.mem_append]
        left
        exact hmem
      · simp only [assignedIds, List.singleton_append, List.mem_cons] at hmem
        rcases hmem with rfl | hmem
        · left
          simp [sysStep, Spool.enqueue, idsOf, Spool.rowOf]
        · right
          exact hmem
    | peekN n =>
      simp only [successfulSends, List.nil_append]
      apply ih _ hinv' r
      rcases hmem with hmem | hmem
      · exact Or.inl hmem
      · simp only [assignedIds, List.nil_append] at hmem
        exact Or.inr hmem
    | upl t =>
      have hstep : sysStep bs st (SysOp.upl t) =
          { spool := (uploadBatch bs st.attempt st.spool t).spool
            attempt := (uploadBatch bs st.attempt st.spool t).attempt } := rfl
      have hassign : assignedIds bs st (SysOp.upl t :: rest) =
          assignedIds bs (sysStep bs st (SysOp.upl t)) rest := by
        simp [assignedIds]
      have hsends : successfulSends bs st (SysOp.upl t :: rest) =
          sentOnSuccess bs st t ++
            successfulSends bs (sysStep bs st (SysOp.upl t)) rest := by
        simp [successfulSends]
      rw [hsends]
      by_cases hp : Spool.peek (bs : Int) st.spool = []
      · have hnoop : sentOnSuccess bs st t = [] := by
          unfold sentOnSuccess
          rw [uploadBatch_of_peek_nil hp]
          rfl
        rw [hnoop, List.nil_append]
        apply ih _ hinv' r
        rcases hmem with hmem | hmem
        · left
          rw [hstep, uploadBatch_of_peek_nil hp]
          exact hmem
        · rw [hassign] at hmem
          exact Or.inr hmem
      · cases ht : t.isSuccess
        · have hnoop : sentOnSuccess bs st t = [] := by
            unfold sentOnSuccess
            rw [uploadBatch_of_fail hp ht]
            rfl
          rw [hnoop, List.nil_append]
          apply ih _ hinv' r
          rcases hmem with hmem | hmem
          · left
            rw [hstep, uploadBatch_of_fail hp ht]
            exact hmem
          · rw [hassign] at hmem
            exact Or.inr hmem
        · have hsent : sentOnSuccess bs st t = idsOf (Spool.peek (bs : Int) st.spool) := by
            unfold sentOnSuccess
            rw [uploadBatch_of_success hp ht]
            rfl
          have hspool' : (sysStep bs st (SysOp.upl t)).spool =
              Spool.ack (idsOf (Spool.peek (bs : Int) st.spool)) st.spool := by
            rw [hstep, uploadBatch_of_success hp ht]
          rw [hsent]
          by_cases hrL : r ∈ idsOf (Spool.peek (bs : Int) st.spool)
          · have hrrows : r ∈ idsOf st.spool.rows := mem_rows_of_mem_peek_ids hrL
            have hbound : r < st.spool.nextRowid := hinv.1 r hrrows
            have hnotin' : r ∉ idsOf (sysStep bs st (SysOp.upl t)).spool.rows := by
              rw [hspool']
              intro hin
              exact (mem_ack_ids_iff.mp hin).2 hrL
            have hbound' : r < (sysStep bs st (SysOp.upl t)).spool.nextRowid := by
              rw [hspool', ack_nextRowid]
              exact hbound
            have hfinal : r ∉ idsOf (sysRun bs (sysStep bs st (SysOp.upl t)) rest).spool.rows :=
              not_mem_sysRun_of_not_mem rest _ r hnotin' hbound'
            constructor
            · intro _
              exact List.mem_append.mpr (Or.inl hrL)
            · intro _
              exact hfinal
          · have hmem' : r ∈ idsOf (sysStep bs st (SysOp.upl t)).spool.rows ∨
                r ∈ assignedIds bs (sysStep bs st (SysOp.upl t)) rest := by
              rcases hmem with hmem | hmem
              · left
                rw [hspool']
                exact mem_ack_ids_iff.mpr ⟨hmem, hrL⟩
              · rw [hassign] at hmem
                exact Or.inr hmem
            rw [ih _ hinv' r hmem']
            constructor
            · intro h
              exact List.mem_append.mpr (Or.inr h)
            · intro h
              rcases List.mem_append.mp h with h | h
              · exact absurd h hrL
              · exact h

/-- With an always-failing transport, a run never removes a row: the
final count is the starting count plus the number of enqueues. -/
theorem count_sysRun_allFail {bs : Nat} (ops : List SysOp) :
    ∀ st : SysState, allFail ops →
      Spool.count (sysRun bs st ops).spool = Spool.count st.spool + enqCount ops := by
  induction ops with
  | nil =>
    intro st _
    rfl
  | cons op rest ih =>
    intro st hfail
    have hfail' : allFail rest := by
      intro t ht
      exact hfail t (List.mem_cons_of_mem _ ht)
    rw [sysRun_cons]
    cases op with
    | enq x c =>
      rw [ih _ hfail']
      simp only [sysStep, Spool.count, Spool.enqueue, List.length_append,
        List.length_cons, List.length_nil, enqCount]
      omega
    | peekN n =>
      rw [ih _ hfail']
      rfl
    | upl t =>
      rw [ih _ hfail']
      have ht : t.isSuccess = false := hfail t (List.mem_cons_self _ _)
      have hspool : (sysStep bs st (SysOp.upl t)).spool = st.spool := by
        show (uploadBatch bs st.attempt st.spool t).spool = st.spool
        by_cases hp : Spool.peek (bs : Int) st.spool = []
        · rw [uploadBatch_of_peek_nil hp]
        · rw [uploadBatch_of_fail hp ht]
      rw [hspool]
      rfl

/-! Lemmas about the ids assigned along a spool-level run. -/

theorem spoolStep_nextRowid_ge {s : SpoolState} {op : SpoolOp} :
    s.nextRowid ≤ (spoolStep s op).nextRowid := by
  cases op with
  | enq x c => simp [spoolStep, Spool.enqueue]
  | ackIds ids =>
    show s.nextRowid ≤ (Spool.ack ids s).nextRowid
    rw [ack_nextRowid]
  | restart => exact Nat.le_refl _

theorem le_of_mem_spoolAssigned (ops : List SpoolOp) :
    ∀ s : SpoolState, ∀ a ∈ spoolAssigned s ops, s.nextRowid ≤ a := by
  induction ops with
  | nil =>
    intro s a ha
    simp [spoolAssigned] at ha
  | cons op rest ih =>
    intro s a ha
    simp only [spoolAssigned, List.mem_append] at ha
    rcases ha with ha | ha
    · cases op <;> simp_all
    · exact le_trans spoolStep_nextRowid_ge (ih _ a ha)

theorem pairwise_spoolAssigned (ops : List SpoolOp) :
    ∀ s : SpoolState, List.Pairwise (· < ·) (spoolAssigned s ops) := by
  induction ops with
  | nil =>
    intro s
    simp [spoolAssigned]
  | cons op rest ih =>
    intro s
    cases op with
    | enq x c =>
      simp only [spoolAssigned, List.singleton_append]
      refine List.Pairwise.cons ?_ (ih _)
      intro b hb
      have h1 : (spoolStep s (SpoolOp.enq x c)).nextRowid ≤ b :=
        le_of_mem_spoolAssigned rest _ b hb
      have h2 : (spoolStep s (SpoolOp.enq x c)).nextRowid = s.nextRowid + 1 := rfl
      omega
    | ackIds ids =>
      simpa only [spoolAssigned, List.nil_append] using ih (spoolStep s (SpoolOp.ackIds ids))
    | restart =>
      simpa only [spoolAssigned, List.nil_append] using ih (spoolStep s SpoolOp.restart)

/-- C7: sequence-id monotonicity and no reuse. Along every sequence of
enqueue, ack, and close-reopen operations on the same spool file, the
sequence ids handed out by the enqueues are strictly increasing in
execution order: each newly enqueued sample receives an id strictly
greater than every id ever assigned before it, across restarts and
regardless of which earlier rows were acked and deleted. -/
theorem claim7_sequence_id_monotonicity (ops : List SpoolOp) :
    List.Pairwise (· < ·) (spoolAssigned Spool.init ops) :=
  pairwise_spoolAssigned ops Spool.init

/-- C9: ack semantics and idempotence. For every queue state and id list:
an empty list is a no-op; ack deletes exactly the rows whose rowid is
listed and keeps every other row unchanged (with the sequence counter
untouched); acking twice with the same list equals acking once; and ids
not present in the table are silently ignored (acking a list equals
acking only its present ids). -/
theorem claim9_ack_semantics (s : SpoolState) (ids : List Nat) :
    Spool.ack [] s = s ∧
    (Spool.ack ids s).rows = s.rows.filter (fun r => decide (r.rowid ∉ ids)) ∧
    (Spool.ack ids s).nextRowid = s.nextRowid ∧
    Spool.ack ids (Spool.ack ids s) = Spool.ack ids s ∧
    Spool.ack ids s = Spool.ack (ids.filter (fun i => decide (i ∈ idsOf s.rows))) s := by
  refine ⟨by simp [Spool.ack], ack_rows ids s, ack_nextRowid ids s, ?_, ?_⟩
  · cases s with
    | mk rows n =>
      by_cases hids : ids = []
      · subst hids
        simp [Spool.ack]
      · simp [Spool.ack, if_neg hids, List.filter_filter]
  · by_cases hids : ids = []
    · subst hids
      simp

    · by_cases hf : ids.filter (fun i => decide (i ∈ idsOf s.rows)) = []
      · have hnone : ∀ i ∈ ids, i ∉ idsOf s.rows := by
          intro i hi
          have := List.filter_eq_nil_iff.mp hf i hi
          simpa using this
        rw [hf]
        have hkeep : s.rows.filter (fun r => decide (r.rowid ∉ ids)) = s.rows := by
          rw [List.filter_eq_self]
          intro r hr
          simp only [decide_eq_true_eq]
          intro hin
          exact hnone r.rowid hin (List.mem_map.mpr ⟨r, hr, rfl⟩)
        cases s with
        | mk rows n =>
          simp only [Spool.ack, if_neg hids, if_pos rfl]
          simp only [Spool.ack] at hkeep
          simp_all
      · cases s with
        | mk rows n =>
          simp only [Spool.ack, if_neg hids, if_neg hf, SpoolState.mk.injEq, and_true]
          apply List.filter_congr
          intro r hr
          have hrin : r.rowid ∈ idsOf rows := List.mem_map.mpr ⟨r, hr, rfl⟩
          simp only [decide_eq_decide, List.mem_filter, decide_eq_true_eq, idsOf]
          simp only [idsOf] at hrin
          constructor
          · intro hna hcon
            exact hna hcon.1
          · intro hna hin
            exact hna ⟨hin, hrin⟩

/-- C1: no-data-loss invariant. Over every interleaving of enqueue, peek
and upload_batch operations run from a fresh pipeline (ack is invoked
only by upload_batch, as in the program), a sample assigned during the
run is deleted from the queue at the end exactly when the uploader
observed a successful 2xx response for a request that contained it; and
for every run whose transport always fails, the final count equals the
number of enqueues. -/
theorem claim1_no_data_loss (batchSize : Nat) (ops : List SysOp) :
    (∀ r : Nat, r ∈ assignedIds batchSize sysInit ops →
      (r ∉ idsOf (sysRun batchSize sysInit ops).spool.rows ↔
        r ∈ successfulSends batchSize sysInit ops)) ∧
    (allFail ops →
      Spool.count (sysRun batchSize sysInit ops).spool = enqCount ops) := by
  constructor
  · intro r hr
    exact mem_sysRun_iff ops sysInit spoolInv_init r (Or.inr hr)
  · intro hfail
    have h := @count_sysRun_allFail batchSize ops sysInit hfail
    simpa [sysInit, Spool.init, Spool.count] using h

/-- Witness for C1: the concrete trace opsW (enqueue, one upload attempt
over a failing transport, enqueue) and the id assigned by its first
enqueue. -/
theorem claim1_no_data_loss_witness :
    (1 ∉ idsOf (sysRun 30 sysInit opsW).spool.rows ↔
      1 ∈ successfulSends 30 sysInit opsW) ∧
    Spool.count (sysRun 30 sysInit opsW).spool = enqCount opsW := by
  constructor
  · apply (claim1_no_data_loss 30 opsW).1 1
    simp [opsW, assignedIds, sysInit, Spool.init]
  · apply (claim1_no_data_loss 30 opsW).2
    intro t ht
    simp only [opsW, List.mem_cons, List.not_mem_nil, or_false] at ht
    rcases ht with h | h | h
    · exact absurd h (by simp)
    · injection h with h2
      subst h2
      rfl
    · exact absurd h (by simp)

/-- A run of k upload_batch calls over a failing transport from a
nonempty spool leaves the spool unchanged and adds k to the attempt
counter. -/
theorem sysRun_replicate_fail (bs : Nat) (s : SpoolState)
    (hrows : s.rows ≠ []) (hbs : 1 ≤ bs) :
    ∀ k a : Nat,
      sysRun bs { spool := s, attempt := a }
        (List.replicate k (SysOp.upl TransportOutcome.transportError)) =
      { spool := s, attempt := a + k } := by
  intro k
  induction k with
  | zero =>
    intro a
    rfl
  | succ k ih =>
    intro a
    rw [List.replicate_succ, sysRun_cons]
    have hpeek : Spool.peek (bs : Int) s ≠ [] :=
      peek_ne_nil (by exact_mod_cast hbs) hrows
    have hstep : sysStep bs { spool := s, attempt := a }
        (SysOp.upl TransportOutcome.transportError) =
        { spool := s, attempt := a + 1 } := by
      show ({ spool := (uploadBatch bs a s TransportOutcome.transportError).spool
              attempt := (uploadBatch bs a s TransportOutcome.transportError).attempt } :
        SysState) = { spool := s, attempt := a + 1 }
      rw [uploadBatch_of_fail hpeek isSuccess_transportError]
    rw [hstep, ih (a + 1)]
    have : a + 1 + k = a + (k + 1) := by omega
    rw [this]

/-- Counterexample to C2 as stated: with base delay 1, max backoff 300
and a nonempty queue, the backoff delay observed after the very first
failed upload_batch call is 2, not 1. The value 1 is the initial backoff
before any failure, so the delays observed after successive failures are
2, 4, 8, ..., not 1, 2, 4, ... -/
theorem claim2_backoff_counterexample :
    (uploadBatch 30 0 spoolOne TransportOutcome.transportError).request ≠ none ∧
    (uploadBatch 30 0 spoolOne TransportOutcome.transportError).returned = false ∧
    currentBackoff 300
      (uploadBatch 30 0 spoolOne TransportOutcome.transportError).attempt = 2 ∧
    ¬ currentBackoff 300
      (uploadBatch 30 0 spoolOne TransportOutcome.transportError).attempt = 1 := by
  have hpeek : Spool.peek ((30 : Nat) : Int) spoolOne ≠ [] :=
    peek_ne_nil (by norm_num) (by simp [spoolOne, Spool.enqueue])
  rw [uploadBatch_of_fail hpeek isSuccess_transportError]
  refine ⟨by simp, rfl, by decide, by decide⟩

/-- C2 (amended): with base delay 1 and max backoff 300, the backoff
starts at 1 before any failure; after the k-th consecutive failed
upload_batch call it equals min(2 to the k, 300), so the successive
values of current_backoff beginning with the initial one are
1, 2, 4, 8, 16, 32, 64, 128, 256, 300, 300, ... (capped at 300 from the
ninth failure on); and a single successful upload_batch at any point
resets the backoff to 1. -/
theorem claim2_backoff_sequence (bs : Nat) (s : SpoolState)
    (hrows : s.rows ≠ []) (hbs : 1 ≤ bs) :
    (∀ k : Nat, currentBackoff 300 (failK bs s k).attempt = min (2 ^ k) 300) ∧
    (List.range 10).map (currentBackoff 300) =
      [1, 2, 4, 8, 16, 32, 64, 128, 256, 300] ∧
    (∀ k : Nat, 9 ≤ k → currentBackoff 300 k = 300) ∧
    (∀ (a : Nat) (t : TransportOutcome), t.isSuccess = true →
      currentBackoff 300 (uploadBatch bs a s t).attempt = 1) := by
  refine ⟨?_, by decide, ?_, ?_⟩
  · intro k
    rw [failK, sysRun_replicate_fail bs s hrows hbs k 0]
    simp [currentBackoff]
  · intro k hk
    have h512 : (300 : Nat) ≤ 2 ^ k := by
      calc (300 : Nat) ≤ 2 ^ 9 := by norm_num
      _ ≤ 2 ^ k := Nat.pow_le_pow_right (by norm_num) hk
    simp [currentBackoff, Nat.min_eq_right h512]
  · intro a t ht
    have hpeek : Spool.peek (bs : Int) s ≠ [] :=
      peek_ne_nil (by exact_mod_cast hbs) hrows
    rw [uploadBatch_of_success hpeek ht]
    rfl

/-- Witness for C2 at the concrete one-row queue: the backoff after one
failure is min 2 300, and a success from attempt 5 resets it to 1. -/
theorem claim2_backoff_sequence_witness :
    currentBackoff 300 (failK 30 spoolOne 1).attempt = min (2 ^ 1) 300 ∧
    currentBackoff 300
      (uploadBatch 30 5 spoolOne (TransportOutcome.response 200)).attempt = 1 := by
  have h := claim2_backoff_sequence 30 spoolOne
    (by simp [spoolOne, Spool.enqueue]) (by norm_num)
  exact ⟨h.1 1, h.2.2.2 5 (TransportOutcome.response 200) (by decide)⟩

/-- Counterexample to C3 as stated: the value returned by upload_batch
on an empty queue (the no-op case) is False, the very same value it
returns for a failed upload from a nonempty queue, so the no-op result
is not distinct from the failure result in the return value; the two
cases differ only in their effects (no network request versus a sent
request). -/
theorem claim3_noop_result_counterexample :
    (uploadBatch 30 0 Spool.init TransportOutcome.transportError).request = none ∧
    (uploadBatch 30 0 spoolOne TransportOutcome.transportError).request ≠ none ∧
    (uploadBatch 30 0 Spool.init TransportOutcome.transportError).returned =
      (uploadBatch 30 0 spoolOne TransportOutcome.transportError).returned := by
  have hempty : Spool.peek ((30 : Nat) : Int) Spool.init = [] :=
    peek_of_rows_nil rfl
  have hpeek : Spool.peek ((30 : Nat) : Int) spoolOne ≠ [] :=
    peek_ne_nil (by norm_num) (by simp [spoolOne, Spool.enqueue])
  rw [uploadBatch_of_peek_nil hempty, uploadBatch_of_fail hpeek isSuccess_transportError]
  exact ⟨rfl, by simp, rfl⟩

/-- C3 (amended): calling upload_batch on an empty queue is a no-op that
returns False (the same value as a failed upload; the no-op is
distinguished from failure only by its effects), issues no network call,
and leaves the spool and the backoff state unchanged. -/
theorem claim3_empty_queue_noop (bs a : Nat) (s : SpoolState)
    (t : TransportOutcome) (h : s.rows = []) :
    uploadBatch bs a s t =
      { returned := false, attempt := a, spool := s, request := none } :=
  uploadBatch_of_peek_nil (peek_of_rows_nil h)

/-- Witness for C3 at the fresh empty spool with attempt counter 7. -/
theorem claim3_empty_queue_noop_witness :
    uploadBatch 30 7 Spool.init TransportOutcome.transportError =
      { returned := false, attempt := 7, spool := Spool.init, request := none } :=
  claim3_empty_queue_noop 30 7 Spool.init TransportOutcome.transportError rfl

/-- C4: delivery-loop wait policy. In every upload-loop iteration from a
reachable pipeline state, with an upload interval of at least one time
unit: a successful upload_batch is followed by a wait of the configured
upload interval; an empty-queue no-op iteration is also followed by a
wait of the configured upload interval; a returned-False iteration waits
the maximum of the configured upload interval and the current backoff;
and the loop never waits less than the configured upload interval. -/
theorem claim4_loop_wait_policy (batchSize interval maxB : Nat)
    (st : SysState) (t : TransportOutcome)
    (hreach : SysReachable batchSize st) (hint : 1 ≤ interval) :
    ((uploadBatch batchSize st.attempt st.spool t).returned = true →
      (loopIter batchSize interval maxB st t).2 = interval) ∧
    (st.spool.rows = [] →
      (loopIter batchSize interval maxB st t).2 = interval) ∧
    ((uploadBatch batchSize st.attempt st.spool t).returned = false →
      (loopIter batchSize interval maxB st t).2 =
        max interval
          (currentBackoff maxB
            (uploadBatch batchSize st.attempt st.spool t).attempt)) ∧
    interval ≤ (loopIter batchSize interval maxB st t).2 := by
  refine ⟨?_, ?_, ?_, ?_⟩
  · intro h
    simp [loopIter, loopDelay, h]
  · intro hrows
    have hatt : st.attempt = 0 := by
      rcases (sysInv_of_reachable hreach).2 with h0 | hne
      · exact h0
      · exact absurd hrows hne
    simp only [loopIter, loopDelay]
    rw [uploadBatch_of_peek_nil (peek_of_rows_nil hrows)]
    simp only [Bool.false_eq_true, if_false, hatt]
    have hle : currentBackoff maxB 0 ≤ interval := by
      unfold currentBackoff
      calc min (2 ^ 0) maxB ≤ 2 ^ 0 := Nat.min_le_left _ _
      _ ≤ interval := by simpa using hint
    exact Nat.max_eq_left hle
  · intro h
    simp [loopIter, loopDelay, h]
  · simp only [loopIter, loopDelay]
    cases hr : (uploadBatch batchSize st.attempt st.spool t).returned
    · simp only [Bool.false_eq_true, if_false]
      exact Nat.le_max_left _ _
    · simp

/-- Witness for C4 at the fresh pipeline state with interval 10, max
backoff 300 and a failing transport: the empty-queue iteration waits
exactly the configured interval. -/
theorem claim4_loop_wait_policy_witness :
    (loopIter 30 10 300 sysInit TransportOutcome.transportError).2 = 10 := by
  have h := claim4_loop_wait_policy 30 10 300 sysInit
    TransportOutcome.transportError ⟨[], rfl⟩ (by norm_num)
  exact h.2.1 rfl

/-- C5: HTTPS enforcement. Constructing an Uploader whose ingest URL
fails the secure-scheme check (the literal https:// prefix test of the
code) raises the configuration error immediately, before any network
client is created; for every URL passing the check the construction
succeeds and the resulting transport client has certificate verification
enabled, with the backoff counter starting at zero. -/
theorem claim5_https_enforcement (url token : String) (bs mb : Nat) :
    (pyStartsWith url ("https://") = false →
      uploaderInit url token bs mb =
        Except.error (UploadError.configurationError url)) ∧
    (pyStartsWith url ("https://") = true →
      ∃ u : Uploader, uploaderInit url token bs mb = Except.ok u ∧
        u.verify = true ∧ u.attempt = 0) := by
  constructor
  · intro h
    unfold uploaderInit
    rw [h]
    simp
  · intro h
    unfold uploaderInit
    rw [h]
    simp only [if_true]
    exact ⟨_, rfl, rfl, rfl⟩

/-- Witness for C5 at a plain-HTTP URL (rejected) and an HTTPS URL
(accepted with verification on). -/
theorem claim5_https_enforcement_witness :
    uploaderInit ("http://vps.example") ("tok") 30 300 =
      Except.error (UploadError.configurationError ("http://vps.example")) ∧
    (uploaderInit ("https://vps.example") ("tok") 30 300).isOk = true := by
  constructor
  · exact (claim5_https_enforcement ("http://vps.example") ("tok") 30 300).1
      (by decide)
  · obtain ⟨u, hu, _, _⟩ :=
      (claim5_https_enforcement ("https://vps.example") ("tok") 30 300).2
        (by decide)
    rw [hu]
    rfl

/-- C6: BackoffState invariant. The exposed backoff always equals
min(1 times 2 to the attempt counter, max_backoff); the counter rises by
exactly one per failed delivery attempt from a nonempty queue, resets to
zero on a successful delivery, and the delay is monotonically
non-decreasing in the failure streak and capped at max_backoff. -/
theorem claim6_backoff_invariant (maxB : Nat) :
    (∀ a : Nat, currentBackoff maxB a = min (1 * 2 ^ a) maxB) ∧
    (∀ (bs a : Nat) (s : SpoolState) (t : TransportOutcome),
      s.rows ≠ [] → 1 ≤ bs → t.isSuccess = false →
      (uploadBatch bs a s t).attempt = a + 1) ∧
    (∀ (bs a : Nat) (s : SpoolState) (t : TransportOutcome),
      s.rows ≠ [] → 1 ≤ bs → t.isSuccess = true →
      (uploadBatch bs a s t).attempt = 0) ∧
    (∀ a : Nat, currentBackoff maxB a ≤ currentBackoff maxB (a + 1)) ∧
    (∀ a : Nat, currentBackoff maxB a ≤ maxB) := by
  refine ⟨?_, ?_, ?_, ?_, ?_⟩
  · intro a
    simp [currentBackoff]
  · intro bs a s t hrows hbs ht
    rw [uploadBatch_of_fail (peek_ne_nil (by exact_mod_cast hbs) hrows) ht]
  · intro bs a s t hrows hbs ht
    rw [uploadBatch_of_success (peek_ne_nil (by exact_mod_cast hbs) hrows) ht]
  · intro a
    unfold currentBackoff
    exact min_le_min (Nat.pow_le_pow_right (by norm_num) (by omega)) (le_refl _)
  · intro a
    exact Nat.min_le_right _ _

/-- Witness for C6 at the concrete one-row queue: one failure from
attempt 0 raises the counter to 1, a success from attempt 4 resets it. -/
theorem claim6_backoff_invariant_witness :
    (uploadBatch 30 0 spoolOne TransportOutcome.transportError).attempt = 0 + 1 ∧
    (uploadBatch 30 4 spoolOne (TransportOutcome.response 204)).attempt = 0 := by
  have h := claim6_backoff_invariant 300
  constructor
  · exact h.2.1 30 0 spoolOne TransportOutcome.transportError
      (by simp [spoolOne, Spool.enqueue]) (by norm_num) rfl
  · exact h.2.2.1 30 4 spoolOne (TransportOutcome.response 204)
      (by simp [spoolOne, Spool.enqueue]) (by norm_num) (by decide)

/-- C10: the secure-scheme check of the Uploader constructor is a
case-sensitive literal prefix test for the lowercase string https://:
construction fails with the insecure-endpoint error exactly when the URL
does not begin with those characters, so the otherwise-valid uppercase
spelling HTTPS://host is rejected, while every URL beginning with
lowercase https:// passes the check. -/
theorem claim10_https_check_case_sensitive :
    (∀ (url token : String) (bs mb : Nat),
      (uploaderInit url token bs mb =
        Except.error (UploadError.configurationError url)) ↔
        pyStartsWith url ("https://") = false) ∧
    uploaderInit ("HTTPS://host") ("tok") 30 300 =
      Except.error (UploadError.configurationError ("HTTPS://host")) ∧
    (uploaderInit ("https://host") ("tok") 30 300).isOk = true := by
  have hkey : ∀ (url token : String) (bs mb : Nat),
      (uploaderInit url token bs mb =
        Except.error (UploadError.configurationError url)) ↔
        pyStartsWith url ("https://") = false := by
    intro url token bs mb
    unfold uploaderInit
    cases hsw : pyStartsWith url ("https://")
    · simp
    · simp
  refine ⟨hkey, (hkey _ _ _ _).mpr (by decide), ?_⟩
  have hsw : pyStartsWith ("https://host") ("https://") = true := by decide
  unfold uploaderInit
  rw [hsw]
  rfl


/-- C8: peek semantics. For every reachable queue state and every integer
n: peek leaves the queue state unchanged; n at most zero yields the empty
sequence; an empty queue yields the empty sequence; the result is exactly
the first n rows in insertion order (strict FIFO), hence at most n rows
with strictly ascending rowids; and every returned row has a rowid
strictly below that of every surviving row not returned. -/
theorem claim8_peek_semantics (s : SpoolState) (n : Int)
    (hreach : SpoolReachable s) :
    (Spool.peekOp n s).2 = s ∧
    (n ≤ 0 → Spool.peek n s = []) ∧
    (s.rows = [] → Spool.peek n s = []) ∧
    Spool.peek n s = s.rows.take n.toNat ∧
    (Spool.peek n s).length ≤ n.toNat ∧
    List.Pairwise (· < ·) (idsOf (Spool.peek n s)) ∧
    (∀ a ∈ Spool.peek n s, ∀ b ∈ s.rows, b ∉ Spool.peek n s →
      a.rowid < b.rowid) := by
  obtain ⟨hbound, hpair⟩ := spoolInv_of_reachable hreach
  have htake : Spool.peek n s = s.rows.take n.toNat := peek_eq_take n s hpair
  refine ⟨rfl, ?_, peek_of_rows_nil, htake, ?_, ?_, ?_⟩
  · intro h
    unfold Spool.peek
    rw [if_pos (by omega)]
  · rw [htake]
    exact List.length_take_le n.toNat s.rows
  · rw [htake]
    unfold idsOf
    exact hpair.sublist ((List.take_sublist _ _).map _)
  · intro a ha b hb hbn
    rw [htake] at ha hbn
    have hsplit := List.take_append_drop n.toNat s.rows
    have hb2 : b ∈ s.rows.take n.toNat ++ s.rows.drop n.toNat := by
      rw [hsplit]
      exact hb
    have hbdrop : b ∈ s.rows.drop n.toNat := by
      rcases List.mem_append.mp hb2 with h | h
      · exact absurd h hbn
      · exact h
    have hpair2 : List.Pairwise (· < ·)
        (idsOf (s.rows.take n.toNat) ++ idsOf (s.rows.drop n.toNat)) := by
      rw [← idsOf_append, hsplit]
      exact hpair
    exact (List.pairwise_append.mp hpair2).2.2 a.rowid
      (List.mem_map.mpr ⟨a, ha, rfl⟩) b.rowid (List.mem_map.mpr ⟨b, hbdrop, rfl⟩)

/-- Witness for C8 at the concrete one-row queue reached by a single
enqueue, with n equal to 5. -/
theorem claim8_peek_semantics_witness :
    Spool.peek 5 spoolOne = spoolOne.rows.take (5 : Int).toNat ∧
    (Spool.peekOp 5 spoolOne).2 = spoolOne := by
  have h := claim8_peek_semantics spoolOne 5 ⟨[SpoolOp.enq sampleA ("t0")], rfl⟩
  exact ⟨h.2.2.2.1, h.1⟩

end P1Edge
